import Mathlib

/-!
Verification of the CoreIndex audit/QC core against its specification.

Shallow embedding conventions:
- Byte streams and byte strings are modelled as List Nat with every element
  below 256 (callers of the original code always supply bytes).
- Python str values that only flow through hashing are modelled as their
  UTF-8 byte sequences (List Nat).
- Machine-word arithmetic is Nat with explicit reduction modulo 2 to the
  word size.
-/

namespace CoreIndex

/-- Reduce to a 32-bit word, as every SHA-256 step does. -/
def w32 (x : Nat) : Nat := x % 4294967296

/-- Rotate a 32-bit word right by n bits. -/
def rotr32 (n x : Nat) : Nat := w32 ((x >>> n) ||| (x <<< (32 - n)))

def bigS0 (x : Nat) : Nat := rotr32 2 x ^^^ rotr32 13 x ^^^ rotr32 22 x

def bigS1 (x : Nat) : Nat := rotr32 6 x ^^^ rotr32 11 x ^^^ rotr32 25 x

def smallS0 (x : Nat) : Nat := rotr32 7 x ^^^ rotr32 18 x ^^^ (x >>> 3)

def smallS1 (x : Nat) : Nat := rotr32 17 x ^^^ rotr32 19 x ^^^ (x >>> 10)

def chFn (e f g : Nat) : Nat := (e &&& f) ^^^ ((e ^^^ 4294967295) &&& g)

def majFn (a b c : Nat) : Nat := (a &&& b) ^^^ (a &&& c) ^^^ (b &&& c)

/-- Integer cube root by descending binary search over 36 bits, enough for
arguments below 2 to the 108. -/
def icbrt (n : Nat) : Nat :=
  (List.range 36).foldl
    (fun acc i =>
      let c := acc + 2 ^ (35 - i)
      if c * c * c ≤ n then c else acc) 0

/-- First 32 fractional bits of the cube root of p. -/
def fracCbrt (p : Nat) : Nat := w32 (icbrt (p * 2 ^ 96))

/-- Integer square root by descending binary search over 40 bits. -/
def isqrt (n : Nat) : Nat :=
  (List.range 40).foldl
    (fun acc i =>
      let c := acc + 2 ^ (39 - i)
      if c * c ≤ n then c else acc) 0

/-- First 32 fractional bits of the square root of p. -/
def fracSqrt (p : Nat) : Nat := w32 (isqrt (p * 2 ^ 64))

/-- The first 64 primes, whose cube roots generate the round constants. -/
def primes64 : List Nat :=
  [2, 3, 5, 7, 11, 13, 17, 19, 23, 29, 31, 37, 41, 43, 47, 53,
   59, 61, 67, 71, 73, 79, 83, 89, 97, 101, 103, 107, 109, 113, 127, 131,
   137, 139, 149, 151, 157, 163, 167, 173, 179, 181, 191, 193, 197, 199,
   211, 223, 227, 229, 233, 239, 241, 251, 257, 263, 269, 271, 277, 281,
   283, 293, 307, 311]

/-- The 64 SHA-256 round constants (FIPS 180-4: the fractional cube-root
bits of the first 64 primes). -/
def sha256K : List Nat := primes64.map fracCbrt

/-- Working state of the SHA-256 compression function. -/
structure Hash8 where
  a : Nat
  b : Nat
  c : Nat
  d : Nat
  e : Nat
  f : Nat
  g : Nat
  h : Nat
deriving Repr, DecidableEq

/-- The initial hash values (fractional square-root bits of the first
eight primes). -/
def sha256Init : Hash8 :=
  ⟨fracSqrt 2, fracSqrt 3, fracSqrt 5, fracSqrt 7,
   fracSqrt 11, fracSqrt 13, fracSqrt 17, fracSqrt 19⟩

/-- Extend a 16-word message schedule by n further words. -/
def extendSchedule : List Nat → Nat → List Nat
  | ws, 0 => ws
  | ws, n + 1 =>
      let len := ws.length
      let nw := w32 (smallS1 (ws.getD (len - 2) 0) + ws.getD (len - 7) 0 +
                     smallS0 (ws.getD (len - 15) 0) + ws.getD (len - 16) 0)
      extendSchedule (ws ++ [nw]) n

def sha256Round (st : Hash8) (kw : Nat × Nat) : Hash8 :=
  let t1 := w32 (st.h + bigS1 st.e + chFn st.e st.f st.g + kw.1 + kw.2)
  let t2 := w32 (bigS0 st.a + majFn st.a st.b st.c)
  ⟨w32 (t1 + t2), st.a, st.b, st.c, w32 (st.d + t1), st.e, st.f, st.g⟩

/-- Worker for chunksOf, structurally recursive on a fuel bound that the
caller sets to the list length (each step consumes at least one element). -/
def chunksOfGo (sz : Nat) : Nat → List α → List (List α)
  | 0, _ => []
  | _, [] => []
  | fuel + 1, x :: xs => (x :: xs).take sz :: chunksOfGo sz fuel ((x :: xs).drop sz)

/-- Split a list into consecutive chunks of the given size; size 0 gives no
chunks (the source stream read with size 0 yields an empty read at once). -/
def chunksOf (sz : Nat) (l : List α) : List (List α) :=
  if sz = 0 then [] else chunksOfGo sz l.length l

/-- Big-endian word from up to four bytes. -/
def beWord (bs : List Nat) : Nat := bs.foldl (fun a b => a * 256 + b) 0

/-- Four big-endian bytes of a 32-bit word. -/
def wordBytes (x : Nat) : List Nat :=
  [x >>> 24 % 256, x >>> 16 % 256, x >>> 8 % 256, x % 256]

/-- Eight big-endian bytes of a 64-bit quantity. -/
def be8 (x : Nat) : List Nat :=
  [x >>> 56 % 256, x >>> 48 % 256, x >>> 40 % 256, x >>> 32 % 256,
   x >>> 24 % 256, x >>> 16 % 256, x >>> 8 % 256, x % 256]

def sha256Compress (st : Hash8) (block : List Nat) : Hash8 :=
  let ws := extendSchedule ((chunksOf 4 block).map beWord) 48
  let r := (ws.zip sha256K).foldl sha256Round st
  ⟨w32 (st.a + r.a), w32 (st.b + r.b), w32 (st.c + r.c), w32 (st.d + r.d),
   w32 (st.e + r.e), w32 (st.f + r.f), w32 (st.g + r.g), w32 (st.h + r.h)⟩

/-- SHA-256 padding: 0x80, zeros to 56 mod 64, then the bit length. -/
def sha256Pad (msg : List Nat) : List Nat :=
  msg ++ [0x80] ++ List.replicate ((119 - msg.length % 64) % 64) 0 ++
    be8 (8 * msg.length)

/-- SHA-256 of a byte list, returned as the 32 digest bytes. -/
def sha256 (msg : List Nat) : List Nat :=
  let fin := (chunksOf 64 (sha256Pad msg)).foldl sha256Compress sha256Init
  wordBytes fin.a ++ wordBytes fin.b ++ wordBytes fin.c ++ wordBytes fin.d ++
    wordBytes fin.e ++ wordBytes fin.f ++ wordBytes fin.g ++ wordBytes fin.h

/-- Lowercase hex character of a value below 16. -/
def hexDigit (d : Nat) : Char :=
  if d < 10 then Char.ofNat (48 + d) else Char.ofNat (87 + d)

/-- Lowercase hex rendering of a byte list (the Python bytes hex method). -/
def bytesHex (bs : List Nat) : String :=
  String.mk (bs.flatMap (fun b => [hexDigit (b / 16 % 16), hexDigit (b % 16)]))

/-- The 0x-prefixed hex rendering used by the source for digests. -/
def hexOfBytes (bs : List Nat) : String := "0x" ++ bytesHex bs

/-! ## Merkle hasher (canonx merkle module) -/

def CHUNK_SIZE : Nat := 4 * 1024 * 1024

/-- One pairing pass over a level: hash adjacent pairs, duplicating an odd
trailing leaf (right = left in the source). -/
def pairStep : List (List Nat) → List (List Nat)
  | [] => []
  | [x] => [sha256 (x ++ x)]
  | x :: y :: rest => sha256 (x ++ y) :: pairStep rest

/-- The while-loop of merkle_from_chunks, structurally recursive on fuel;
each pass shrinks a level of length at least 2, so fuel = length suffices. -/
def merkleLevelsGo : Nat → List (List Nat) → List (List Nat)
  | 0, level => level
  | fuel + 1, level =>
      if level.length ≤ 1 then level else merkleLevelsGo fuel (pairStep level)

/-- Binary Merkle root over leaf hashes; the empty list maps to the hash of
the empty byte string by convention, as in the source. -/
def merkle_from_chunks (leafHashes : List (List Nat)) : List Nat :=
  if leafHashes = [] then sha256 []
  else (merkleLevelsGo leafHashes.length leafHashes).headD []

/-- Result tuple of merkle_stream: (root hex, leaf hexes, total bytes,
chunk count, chunk size). -/
structure MerkleResult where
  root : String
  leaves : List String
  numBytes : Nat
  numChunks : Nat
  chunkSize : Nat
deriving Repr, DecidableEq

/-- merkle_stream over an in-memory byte stream: chunk, hash each chunk,
accumulate the byte total exactly as the read loop does. -/
def merkle_stream (data : List Nat) (chunkSize : Nat := CHUNK_SIZE) :
    MerkleResult :=
  let chunks := chunksOf chunkSize data
  let leafHashes := chunks.map sha256
  let total := (chunks.map List.length).sum
  ⟨hexOfBytes (merkle_from_chunks leafHashes), leafHashes.map hexOfBytes,
   total, leafHashes.length, chunkSize⟩

/-! ## HMAC-SHA256 and the sampling engine (qc sampling module) -/

/-- HMAC-SHA256 over byte lists (the hmac module with a 64-byte block). -/
def hmacSha256 (key msg : List Nat) : List Nat :=
  let k0 := if 64 < key.length then sha256 key else key
  let kp := k0 ++ List.replicate (64 - k0.length) 0
  sha256 (kp.map (· ^^^ 0x5c) ++ sha256 (kp.map (· ^^^ 0x36) ++ msg))

/-- Big-endian integer value of a byte list (int.from_bytes big). -/
def beNat (bs : List Nat) : Nat := bs.foldl (fun a b => a * 256 + b) 0

/-- Counter-based DRBG draw: HMAC the 8-byte big-endian counter and read the
digest as a 256-bit big-endian integer. Counters in use are far below 2 to
the 64 (struct.pack would reject larger ones). -/
def hmac_drbg (seed : List Nat) (counter : Nat) : Nat :=
  beNat (hmacSha256 seed (be8 counter))

/-- Job seed: HMAC keyed by the master key over job, window, tier, epoch
joined with the pipe byte 124. Strings are modelled as UTF-8 bytes. -/
def derive_job_seed (masterKey jobId window tier secretEpoch : List Nat) :
    List Nat :=
  hmacSha256 masterKey
    (jobId ++ [124] ++ window ++ [124] ++ tier ++ [124] ++ secretEpoch)

/-- Package seed: HMAC of the package id keyed by the job seed. -/
def derive_pkg_seed (jobSeed packageId : List Nat) : List Nat :=
  hmacSha256 jobSeed packageId

/-- Loop body of choose_indices. The source keeps a seen set and an out
list that always receive elements together, so membership in out coincides
with membership in seen and both lengths agree; only out is carried here.
Fuel bounds the number of counter draws of the unbounded while loop. -/
def chooseGo (seed : List Nat) (populationSize k : Nat) :
    Nat → List Nat → Nat → List Nat
  | 0, out, _ => out
  | fuel + 1, out, counter =>
      if out.length < k ∧ out.length < populationSize then
        let idx := hmac_drbg seed counter % populationSize
        if idx ∈ out then chooseGo seed populationSize k fuel out (counter + 1)
        else chooseGo seed populationSize k fuel (out ++ [idx]) (counter + 1)
      else out

/-- Deterministic sampling without replacement; draws start at counter 0. -/
def choose_indices (seed : List Nat) (populationSize k fuel : Nat) :
    List Nat :=
  chooseGo seed populationSize k fuel [] 0

/-- Round half to even, the semantics of the Python round builtin; the rate
arithmetic is modelled over exact rationals. -/
def roundHalfEven (q : ℚ) : ℤ :=
  let f := ⌊q⌋
  let r := q - f
  if r < 1 / 2 then f
  else if 1 / 2 < r then f + 1
  else if f % 2 = 0 then f else f + 1

/-- compute_count: the larger of the policy floor and the rounded rate. -/
def compute_count (nItems : ℤ) (rate : ℚ) (floor : ℤ) : ℤ :=
  max floor (roundHalfEven (nItems * rate))

/-- Modelled from the spec: the policy configuration file (qc_policy json)
is absent from the sources; the spec lists exactly these read-only fields,
consumed from the defaults section by plan_sampling. -/
structure Policy where
  dupRate : ℚ
  canaryRate : ℚ
  minCanariesPerPkg : ℤ
  spotRate : ℚ
  minSpotItemsPerPkg : ℤ
deriving Repr, DecidableEq

structure SamplingPlan where
  dupSelected : Bool
  canaryIndices : List Nat
  spotIndices : List Nat
  canaryCount : ℤ
  spotCount : ℤ
deriving Repr, DecidableEq

/-- Hex value of one character, as bytes.fromhex accepts. -/
def hexVal (c : Char) : Option Nat :=
  if '0' ≤ c ∧ c ≤ '9' then some (c.toNat - 48)
  else if 'a' ≤ c ∧ c ≤ 'f' then some (c.toNat - 87)
  else if 'A' ≤ c ∧ c ≤ 'F' then some (c.toNat - 55)
  else none

/-- bytes.fromhex over a whitespace-free hex string: hex digit pairs. -/
def bytesFromHex : List Char → Except String (List Nat)
  | [] => .ok []
  | [_] => .error "non-hexadecimal number found in fromhex() arg"
  | c1 :: c2 :: rest =>
      match hexVal c1, hexVal c2 with
      | some h1, some h2 => (bytesFromHex rest).map (fun bs => (16 * h1 + h2) :: bs)
      | _, _ => .error "non-hexadecimal number found in fromhex() arg"

/-- Drop a leading 0x marker, as removeprefix does on the seed hex. -/
def dropHexMarker : List Char → List Char
  | '0' :: 'x' :: rest => rest
  | s => s

/-- plan_sampling. The ambient master secret and the policy file are passed
explicitly; a supplied non-empty seed hex replaces the derived job seed
(the source tests plain truthiness, so an empty string counts as absent).
Fuel feeds the choose_indices draw loops. -/
def plan_sampling (jobId window tier packageId : List Nat) (nItems : ℤ)
    (secretEpoch : List Nat) (jobSeedHex : Option (List Char))
    (masterKey : List Nat) (policy : Policy) (fuel : Nat) :
    Except String SamplingPlan :=
  if nItems ≤ 0 then .error "n_items must be > 0"
  else
    (match jobSeedHex with
      | some (c :: cs) => bytesFromHex (dropHexMarker (c :: cs))
      | _ => .ok (derive_job_seed masterKey jobId window tier secretEpoch)).bind
    fun jobSeed =>
      let pkgSeed := derive_pkg_seed jobSeed packageId
      let roll : ℚ := (hmac_drbg pkgSeed 0 : ℚ) / 2 ^ 256
      let dupSelected := decide (roll < policy.dupRate)
      let canaryCount := compute_count nItems policy.canaryRate policy.minCanariesPerPkg
      let spotCount := compute_count nItems policy.spotRate policy.minSpotItemsPerPkg
      let canaryIndices := choose_indices pkgSeed nItems.toNat canaryCount.toNat fuel
      let spotIndices := choose_indices pkgSeed nItems.toNat spotCount.toNat fuel
      .ok ⟨dupSelected, canaryIndices, spotIndices, canaryCount, spotCount⟩

/-! ## Dispute decision (qc dispute module)

The source computes the binomial CDF with Python floats; eps0, alpha and the
CDF are modelled over exact rationals, which coincides with the float run on
dyadic inputs such as one half. -/

def binom_cdf (k n : ℤ) (p : ℚ) : ℚ :=
  if k < 0 then 0
  else if n ≤ k then 1
  else ((List.range (k.toNat + 1)).map
    (fun i => (Nat.choose n.toNat i : ℚ) * p ^ i * (1 - p) ^ (n.toNat - i))).sum

/-- Accept when the left-tail CDF is at least alpha (verbatim source rule). -/
def accepts (eps0 alpha : ℚ) (x n : ℤ) : Bool :=
  decide (alpha ≤ binom_cdf x n eps0)

def decision (x n : ℤ) (eps0 : ℚ := 1 / 100) (alpha : ℚ := 1 / 100) : String :=
  if ¬ accepts eps0 alpha x n then "reject_slash" else "accept"

/-! ## ULP distance (canonx ulp module)

IEEE-754 doubles are modelled by their raw 64-bit patterns (a Nat below 2 to
the 64); the struct unpack of the source reads that pattern as a signed
64-bit integer. -/

/-- NaN pattern: exponent field all ones with a nonzero mantissa. -/
def isNanBits (b : Nat) : Bool :=
  ((b >>> 52) &&& 2047 == 2047) && (b &&& 4503599627370495 != 0)

/-- The pattern of a signed zero (what an equality test against 0.0 accepts
for the non-NaN values reaching it). -/
def isZeroBits (b : Nat) : Bool := b &&& 9223372036854775807 == 0

/-- Monotonic ordered integer of a pattern: the signed bits, with the low 63
bits flipped on negatives (the sign-bit arithmetic-shift mask of the
source). -/
def floatToOrderedInt (b : Nat) : ℤ :=
  if b < 9223372036854775808 then (b : ℤ)
  else ((b ^^^ 9223372036854775807 : Nat) : ℤ) - 18446744073709551616

def ulp_distance (pa pb : Nat) : ℤ :=
  if isNanBits pa || isNanBits pb then 9223372036854775807
  else if isZeroBits pa && isZeroBits pb then 0
  else |floatToOrderedInt pa - floatToOrderedInt pb|

/-! ## GF(2) certificate verifier (cado proofkit) -/

/-- The whitespace characters the str.strip default removes (ASCII set). -/
def isSpaceChar (c : Char) : Bool :=
  c = ' ' || c = '\t' || c = '\n' || c = '\x0d' || c = '\x0b' || c = '\x0c'

/-- str.strip: drop surrounding whitespace. -/
def pyStrip (s : List Char) : List Char :=
  ((s.dropWhile isSpaceChar).reverse.dropWhile isSpaceChar).reverse

/-- Bit list of a row string: ones where the character is the digit one. -/
def parseBitstring (s : List Char) : List Nat :=
  (pyStrip s).map (fun ch => if ch = '1' then 1 else 0)

/-- XOR-reduced bitwise AND of two bit rows (dot product mod 2). -/
def dotF2 (r v : List Nat) : Nat :=
  ((r.zip v).map (fun p => p.1 &&& p.2)).foldl (· ^^^ ·) 0

/-- Row loop of verify_f2_matrix_vector: a mismatched row length raises, a
nonzero dot product returns False, both cutting the loop short. -/
def verifyF2Go (n : Nat) (v : List Nat) : List (List Char) → Except String Bool
  | [] => .ok true
  | row :: rest =>
      let r := parseBitstring row
      if r.length ≠ n then .error "Row length mismatch in matrix"
      else if dotF2 r v ≠ 0 then .ok false
      else verifyF2Go n v rest

def verify_f2_matrix_vector (matrixRows : List (List Char))
    (vectorBits : List Char) : Except String Bool :=
  let v := parseBitstring vectorBits
  verifyF2Go v.length v matrixRows

/-- A concrete package seed used when instantiating the sampling theorems:
master key k, job j, window w, tier t, epoch e, package p as UTF-8 bytes. -/
def pkgSeedW : List Nat :=
  derive_pkg_seed (derive_job_seed [107] [106] [119] [116] [101]) [112]

/-! ## Parsed JSON values (the json module, as the comparator consumes it)

JSON numbers are modelled as exact rationals: the decimal literal is read
exactly, where Python rounds it to binary64 (the rounding is applied by
floatBits at the points where the source manipulates double bit patterns).
Python ints and floats both land in the num constructor, matching the
numeric cross-type equality the comparator relies on. Strings are carried
as their UTF-8 bytes; parsed objects are association lists in insertion
order with last-wins duplicate keys, exactly the dict the json module
builds. -/

inductive Jv where
  | null
  | bool (b : Bool)
  | num (q : ℚ)
  | str (s : List Nat)
  | arr (xs : List Jv)
  | obj (kvs : List (List Nat × Jv))

/-- dict lookup by key over the association list. -/
def lookupJv (k : List Nat) : List (List Nat × Jv) → Option Jv
  | [] => none
  | (k2, v) :: rest => if k2 = k then some v else lookupJv k rest

/-- Python equality on parsed JSON values: numeric cross-type equality for
bools and numbers, elementwise for lists, key-set plus per-key equality for
dicts. -/
def jvEq : Jv → Jv → Bool
  | .null, .null => true
  | .bool a, .bool b => a == b
  | .bool a, .num q => (if a then (1 : ℚ) else 0) == q
  | .num q, .bool b => q == (if b then (1 : ℚ) else 0)
  | .num a, .num b => a == b
  | .str a, .str b => a == b
  | .arr xs, .arr ys =>
      xs.length == ys.length &&
      (List.zip xs.attach ys).all (fun p => jvEq p.1.val p.2)
  | .obj a, .obj b =>
      a.length == b.length &&
      a.attach.all (fun e =>
        match lookupJv e.val.1 b with
        | some v2 => jvEq e.val.2 v2
        | none => false)
  | _, _ => false
termination_by v _ => sizeOf v
decreasing_by
  · have h1 := List.sizeOf_lt_of_mem p.1.property
    simp only [Jv.arr.sizeOf_spec]
    omega
  · have h1 := List.sizeOf_lt_of_mem e.property
    have h2 : sizeOf e.val.2 < sizeOf e.val := by
      obtain ⟨k, v⟩ := e.val
      simp only [Prod.mk.sizeOf_spec]
      omega
    simp only [Jv.obj.sizeOf_spec]
    omega

/-- Whitespace bytes the json module skips between tokens. -/
def skipWs (s : List Nat) : List Nat :=
  s.dropWhile (fun b => b == 32 || b == 9 || b == 10 || b == 13)

def isDigitByte (b : Nat) : Bool := 48 ≤ b && b ≤ 57

def digitsVal (ds : List Nat) : Nat := ds.foldl (fun a d => a * 10 + (d - 48)) 0

/-- UTF-8 encoding of one code point (used for u-escapes in strings). -/
def utf8Encode (cp : Nat) : List Nat :=
  if cp < 128 then [cp]
  else if cp < 2048 then [192 + cp / 64, 128 + cp % 64]
  else if cp < 65536 then [224 + cp / 4096, 128 + cp / 64 % 64, 128 + cp % 64]
  else [240 + cp / 262144, 128 + cp / 4096 % 64, 128 + cp / 64 % 64, 128 + cp % 64]

/-- Four-hex-digit scalar of a u-escape. -/
def hex4 : List Nat → Option (Nat × List Nat)
  | b1 :: b2 :: b3 :: b4 :: rest =>
      let hv := fun (b : Nat) =>
        if isDigitByte b then some (b - 48)
        else if 97 ≤ b ∧ b ≤ 102 then some (b - 87)
        else if 65 ≤ b ∧ b ≤ 70 then some (b - 55)
        else none
      match hv b1, hv b2, hv b3, hv b4 with
      | some h1, some h2, some h3, some h4 =>
          some (((h1 * 16 + h2) * 16 + h3) * 16 + h4, rest)
      | _, _, _, _ => none
  | _ => none

/-- String body scanner: collect bytes up to the closing quote, decoding
escapes; control bytes below 32 are rejected as the json module does.
Surrogate pairs in consecutive u-escapes are combined; a lone surrogate is
encoded as-is (Python keeps it as a lone surrogate character). -/
def scanString : Nat → List Nat → Except String (List Nat × List Nat)
  | 0, _ => .error "Unterminated string"
  | _, [] => .error "Unterminated string"
  | fuel + 1, b :: rest =>
      if b = 34 then .ok ([], rest)
      else if b = 92 then
        match rest with
        | [] => .error "Unterminated string"
        | e :: rest2 =>
            let simpleEsc : Option Nat :=
              if e = 34 then some 34 else if e = 92 then some 92
              else if e = 47 then some 47 else if e = 98 then some 8
              else if e = 102 then some 12 else if e = 110 then some 10
              else if e = 114 then some 13 else if e = 116 then some 9
              else none
            match simpleEsc with
            | some c =>
                (scanString fuel rest2).map (fun p => (c :: p.1, p.2))
            | none =>
                if e = 117 then
                  match hex4 rest2 with
                  | none => .error "Invalid x5cuXXXX escape"
                  | some (cp, rest3) =>
                      if 55296 ≤ cp ∧ cp ≤ 56319 then
                        match rest3 with
                        | 92 :: 117 :: rest4 =>
                            match hex4 rest4 with
                            | some (lo, rest5) =>
                                if 56320 ≤ lo ∧ lo ≤ 57343 then
                                  let full := 65536 + (cp - 55296) * 1024 + (lo - 56320)
                                  (scanString fuel rest5).map
                                    (fun p => (utf8Encode full ++ p.1, p.2))
                                else
                                  (scanString fuel (92 :: 117 :: rest4)).map
                                    (fun p => (utf8Encode cp ++ p.1, p.2))
                            | none =>
                                (scanString fuel (92 :: 117 :: rest4)).map
                                  (fun p => (utf8Encode cp ++ p.1, p.2))
                        | _ =>
                            (scanString fuel rest3).map
                              (fun p => (utf8Encode cp ++ p.1, p.2))
                      else
                        (scanString fuel rest3).map
                          (fun p => (utf8Encode cp ++ p.1, p.2))
                else .error "Invalid x5cescape"
      else if b < 32 then .error "Invalid control character"
      else (scanString fuel rest).map (fun p => (b :: p.1, p.2))

/-- Strict JSON number: optional minus, no leading zeros, optional fraction
and exponent; evaluated exactly as a rational. -/
def parseNumBytes (s : List Nat) : Except String (ℚ × List Nat) :=
  let (neg, s1) := match s with
    | 45 :: r => (true, r)
    | _ => (false, s)
  let intDigits := s1.takeWhile isDigitByte
  let s2 := s1.drop intDigits.length
  if intDigits = [] then .error "Expecting value"
  else if 1 < intDigits.length ∧ intDigits.headD 0 = 48 then
    .error "leading zeros are not valid JSON"
  else
    let (fracDigits, s3) := match s2 with
      | 46 :: r =>
          let fd := r.takeWhile isDigitByte
          (fd, r.drop fd.length)
      | _ => ([], s2)
    if s2 ≠ [] ∧ s2.headD 0 = 46 ∧ fracDigits = [] then .error "Expecting digits after the point"
    else
      let expRes : Except String (ℤ × List Nat) := match s3 with
        | 101 :: r | 69 :: r =>
            let (esign, r2) := match r with
              | 45 :: rr => ((-1 : ℤ), rr)
              | 43 :: rr => ((1 : ℤ), rr)
              | _ => ((1 : ℤ), r)
            let ed := r2.takeWhile isDigitByte
            if ed = [] then .error "Expecting digits in exponent"
            else .ok (esign * (digitsVal ed : ℤ), r2.drop ed.length)
        | _ => .ok (0, s3)
      expRes.map (fun pe =>
        let mant : ℚ := (digitsVal (intDigits ++ fracDigits) : ℚ)
        let scaled := mant * (10 : ℚ) ^ (pe.1 - (fracDigits.length : ℤ))
        ((if neg then -scaled else scaled), pe.2))

/-- dict insertion with last-wins overwrite that keeps the original key
position, as Python dicts do. -/
def insertKV (k : List Nat) (v : Jv) : List (List Nat × Jv) → List (List Nat × Jv)
  | [] => [(k, v)]
  | (k2, v2) :: rest =>
      if k2 = k then (k2, v) :: rest else (k2, v2) :: insertKV k v rest

mutual

/-- Recursive-descent value parser of the json module over UTF-8 bytes.
The NaN and Infinity extensions of the Python parser are not modelled
(canonical streams encode those as string tokens). -/
def parseVal : Nat → List Nat → Except String (Jv × List Nat)
  | 0, _ => .error "out of fuel"
  | _ + 1, [] => .error "Expecting value"
  | fuel + 1, b :: rest =>
      if b = 123 then
        let s1 := skipWs rest
        match s1 with
        | 125 :: r => .ok (.obj [], r)
        | _ => parseObjItems fuel s1 []
      else if b = 91 then
        let s1 := skipWs rest
        match s1 with
        | 93 :: r => .ok (.arr [], r)
        | _ => parseArrItems fuel s1 []
      else if b = 34 then
        (scanString (rest.length + 1) rest).map (fun p => (.str p.1, p.2))
      else if b = 116 then
        match rest with
        | 114 :: 117 :: 101 :: r => .ok (.bool true, r)
        | _ => .error "Expecting value"
      else if b = 102 then
        match rest with
        | 97 :: 108 :: 115 :: 101 :: r => .ok (.bool false, r)
        | _ => .error "Expecting value"
      else if b = 110 then
        match rest with
        | 117 :: 108 :: 108 :: r => .ok (.null, r)
        | _ => .error "Expecting value"
      else if b = 45 ∨ isDigitByte b then
        (parseNumBytes (b :: rest)).map (fun p => (.num p.1, p.2))
      else .error "Expecting value"

/-- Comma-separated array items up to the closing bracket. -/
def parseArrItems (fuel : Nat) (s : List Nat) (acc : List Jv) :
    Except String (Jv × List Nat) :=
  match fuel with
  | 0 => .error "out of fuel"
  | fuel + 1 =>
      match parseVal fuel s with
      | .error e => .error e
      | .ok (v, r) =>
          match skipWs r with
          | 44 :: r2 => parseArrItems fuel (skipWs r2) (acc ++ [v])
          | 93 :: r2 => .ok (.arr (acc ++ [v]), r2)
          | _ => .error "Expecting comma"

/-- Comma-separated key-value members up to the closing brace. -/
def parseObjItems (fuel : Nat) (s : List Nat) (acc : List (List Nat × Jv)) :
    Except String (Jv × List Nat) :=
  match fuel with
  | 0 => .error "out of fuel"
  | fuel + 1 =>
      match s with
      | 34 :: r =>
          match scanString (r.length + 1) r with
          | .error e => .error e
          | .ok (key, r2) =>
              match skipWs r2 with
              | 58 :: r3 =>
                  match parseVal fuel (skipWs r3) with
                  | .error e => .error e
                  | .ok (v, r4) =>
                      match skipWs r4 with
                      | 44 :: r5 =>
                          match skipWs r5 with
                          | 34 :: r6 => parseObjItems fuel (34 :: r6) (insertKV key v acc)
                          | _ => .error "Expecting property name"
                      | 125 :: r5 => .ok (.obj (insertKV key v acc), r5)
                      | _ => .error "Expecting comma"
              | _ => .error "Expecting colon"
      | _ => .error "Expecting property name"

end

/-- json.loads over the bytes of one line: a single value surrounded by
optional whitespace. -/
def jsonLoads (s : List Nat) : Except String Jv :=
  match parseVal (s.length + 1) (skipWs s) with
  | .error e => .error e
  | .ok (v, r) => if skipWs r = [] then .ok v else .error "Extra data"

/-! ## The comparator (canonx compare and api_compare modules) -/

/-- Rounding of an exact rational to a binary64 bit pattern with round half
to even, the value Python float conversion produces: subnormals, signed
zero flush of underflow, and overflow to the infinity pattern included. -/
def floatBits (q : ℚ) : Nat :=
  if q = 0 then 0
  else
    let s : Nat := if q < 0 then 9223372036854775808 else 0
    let m : ℚ := |q|
    let e : ℤ := Int.log 2 m
    if e ≤ -1023 then
      s + (roundHalfEven (m * 2 ^ (1074 : ℕ))).toNat
    else
      let n := (roundHalfEven (m * (2 : ℚ) ^ (52 - e))).toNat
      if 1024 ≤ e ∨ (e = 1023 ∧ n = 9007199254740992) then
        s + 9218868437227405312
      else s + ((e + 1023).toNat * 4503599627370496 + (n - 4503599627370496))

/-- The byte strings of the three special float tokens. -/
def nanTok : List Nat := [78, 97, 78]

def infTok : List Nat := [73, 110, 102]

def ninfTok : List Nat := [45, 73, 110, 102]

/-- A value the special-token test accepts: one of the three token strings. -/
def isSpecialTok (v : Jv) : Bool :=
  match v with
  | .str s => s == nanTok || s == infTok || s == ninfTok
  | _ => false

/-- isinstance int-or-float, which in Python admits bools as ints. -/
def isNumLike (v : Jv) : Bool :=
  match v with
  | .num _ => true
  | .bool _ => true
  | _ => false

/-- Whitespace byte test for stripping around numeric strings. -/
def isSpaceByte (b : Nat) : Bool :=
  b == 32 || b == 9 || b == 10 || b == 13 || b == 11 || b == 12

/-- str.strip over byte strings. -/
def pyStripBytes (s : List Nat) : List Nat :=
  ((s.dropWhile isSpaceByte).reverse.dropWhile isSpaceByte).reverse

/-- float() coercion of a JSON value: numbers pass, bools become 0 or 1,
numeric strings are parsed (modelled for finite decimal forms), everything
else raises. -/
def coerceJsonNumber (v : Jv) : Except String ℚ :=
  match v with
  | .num q => .ok q
  | .bool b => .ok (if b then 1 else 0)
  | .str s =>
      match parseNumBytes (pyStripBytes s) with
      | .ok (q, []) => .ok q
      | _ => .error "could not convert string to float"
  | _ => .error "float() argument must be a string or a real number"

/-- Relative error with the floor of ten to the minus twelve in the
denominator (the Python 1e-12 literal, modelled as the exact power). -/
def rel_err (a b : ℚ) : ℚ :=
  |a - b| / max (1 / 1000000000000) (max |a| |b|)

/-- _same_numeric: special tokens must match literally; both signed zeros
are equal; otherwise the relative-error and ULP tests must both pass. -/
def sameNumeric (a b : Jv) (relTol : ℚ) (maxUlp : ℤ) :
    Except String (Bool × ℚ × ℤ) :=
  if isSpecialTok a || isSpecialTok b then
    .ok (isSpecialTok a && isSpecialTok b && jvEq a b, 0, 0)
  else
    match coerceJsonNumber a with
    | .error e => .error e
    | .ok fa =>
        match coerceJsonNumber b with
        | .error e => .error e
        | .ok fb =>
            if fa = 0 ∧ fb = 0 then .ok (true, 0, 0)
            else
              let re := rel_err fa fb
              let ulp := ulp_distance (floatBits fa) (floatBits fb)
              .ok (decide (re ≤ relTol) && decide (ulp ≤ maxUlp), re, ulp)

/-- Key-set equality of the two parsed records, the set semantics of the
keys-view comparison. -/
def keysEq (a b : List (List Nat × Jv)) : Bool :=
  a.all (fun e => b.any (fun e2 => e2.1 == e.1)) &&
  b.all (fun e => a.any (fun e2 => e2.1 == e.1))

/-- Running state of the comparison loop. -/
structure CmpState where
  diffs : Nat
  relErrMax : ℚ
  ulpMax : ℤ
  recs : Nat

/-- The per-key pass of the fp_tolerant branch, in the record's insertion
order: identical values skip, numeric-or-special values go through
sameNumeric with running maxima, any other mismatch is one difference. -/
def foldKeys (relTol : ℚ) (maxUlp : ℤ) :
    List (List Nat × Jv) → List (List Nat × Jv) → CmpState →
    Except String CmpState
  | [], _, st => .ok st
  | (k, va) :: rest, ob, st =>
      match lookupJv k ob with
      | none => .error "KeyError"
      | some vb =>
          if jvEq va vb then foldKeys relTol maxUlp rest ob st
          else if isNumLike va || isNumLike vb || isSpecialTok va || isSpecialTok vb then
            match sameNumeric va vb relTol maxUlp with
            | .error e => .error e
            | .ok (ok, re, ulp) =>
                let st1 : CmpState :=
                  ⟨if ok then st.diffs else st.diffs + 1,
                   max st.relErrMax re, max st.ulpMax ulp, st.recs⟩
                foldKeys relTol maxUlp rest ob st1
          else
            foldKeys relTol maxUlp rest ob
              ⟨st.diffs + 1, st.relErrMax, st.ulpMax, st.recs⟩

/-- readline splitting: each line keeps its trailing newline byte. -/
def splitLine : List Nat → List Nat × List Nat
  | [] => ([], [])
  | b :: rest =>
      if b = 10 then ([b], rest)
      else
        let p := splitLine rest
        (b :: p.1, p.2)

def linesOfGo : Nat → List Nat → List (List Nat)
  | 0, _ => []
  | _, [] => []
  | fuel + 1, b :: rest =>
      let p := splitLine (b :: rest)
      p.1 :: linesOfGo fuel p.2

/-- The sequence of readline results of a byte stream (without the final
empty read). -/
def linesOf (s : List Nat) : List (List Nat) := linesOfGo s.length s

/-- The lock-step line loop of compare_canonical_streams: one terminal
difference when one stream runs out first; per pair, parse both records,
count the record, then the bit_exact structural check or the fp_tolerant
key pass. -/
def compareLoop (mode : String) (relTol : ℚ) (maxUlp : ℤ) :
    List (List Nat) → List (List Nat) → CmpState → Except String CmpState
  | [], [], st => .ok st
  | [], _ :: _, st => .ok ⟨st.diffs + 1, st.relErrMax, st.ulpMax, st.recs⟩
  | _ :: _, [], st => .ok ⟨st.diffs + 1, st.relErrMax, st.ulpMax, st.recs⟩
  | la :: as, lb :: bs, st =>
      match jsonLoads la with
      | .error e => .error e
      | .ok ra =>
          match jsonLoads lb with
          | .error e => .error e
          | .ok rb =>
              let st0 : CmpState := ⟨st.diffs, st.relErrMax, st.ulpMax, st.recs + 1⟩
              if mode == "bit_exact" then
                compareLoop mode relTol maxUlp as bs
                  (if jvEq ra rb then st0
                   else ⟨st0.diffs + 1, st0.relErrMax, st0.ulpMax, st0.recs⟩)
              else
                match ra, rb with
                | .obj oa, .obj ob =>
                    if keysEq oa ob then
                      match foldKeys relTol maxUlp oa ob st0 with
                      | .error e => .error e
                      | .ok st1 => compareLoop mode relTol maxUlp as bs st1
                    else
                      compareLoop mode relTol maxUlp as bs
                        ⟨st0.diffs + 1, st0.relErrMax, st0.ulpMax, st0.recs⟩
                | _, _ => .error "AttributeError: keys"

/-- The result dict of the comparator. -/
structure CompareResult where
  equal : Bool
  mode : String
  schemaId : String
  recordCount : Option Nat
  relErrMax : ℚ
  ulpMax : ℤ
  differences : Nat

def compare_canonical_streams (a b : List Nat) (schemaId mode : String)
    (relTol : ℚ) (maxUlp : ℤ) : Except String CompareResult :=
  match compareLoop mode relTol maxUlp (linesOf a) (linesOf b) ⟨0, 0, 0, 0⟩ with
  | .error e => .error e
  | .ok st =>
      .ok ⟨st.diffs == 0, mode, schemaId, some st.recs, st.relErrMax,
        st.ulpMax, st.diffs⟩

/-- compare_canonical_fast: hash both streams; on equal roots return the
fast result with no record count and zero differences, otherwise rewind
(pure lists need no rewinding) and run the full comparison. -/
def compare_canonical_fast (a b : List Nat) (schemaId mode : String)
    (relTol : ℚ) (maxUlp : ℤ) : Except String CompareResult :=
  if (merkle_stream a CHUNK_SIZE).root = (merkle_stream b CHUNK_SIZE).root then
    .ok ⟨true, mode, schemaId, none, 0, 0, 0⟩
  else compare_canonical_streams a b schemaId mode relTol maxUlp

/-- Value a result keeps when the echoed mode string is forgotten. -/
def forgetMode (r : CompareResult) : CompareResult :=
  ⟨r.equal, "", r.schemaId, r.recordCount, r.relErrMax, r.ulpMax, r.differences⟩

/-! ## Canonicalizer (canonx canonicalize module), cado_relations schema

The integer-only cado_relations canonicalizer exercises the shared
row-sorting and JSONL-writing pipeline without the binary64
shortest-representation serialization of the float columns of the table
schema. Raw records are association lists from field name to an integer or
null (the values the int() cast of the source receives from parsed JSONL),
with dict lookup by first occurrence. -/

/-- Modelled from the spec: the schema registry files are absent from the
sources. The spec has every schema declare ordered field names, per-field
optionality and a primary-key field list; the source hardwires large_prime
as the one optional field of cado_relations at version 1. The relation
pair a, b followed by large_prime, with primary key [a, b], completes the
model. -/
def cadoFields : List String := ["a", "b", "large_prime"]

/-- Modelled from the spec: the primary-key field list of the
cado_relations schema, used for canonical ordering. -/
def cadoPrimaryKey : List String := ["a", "b"]

/-- dict membership and access over a raw record. -/
def lookupRaw (k : String) : List (String × Option ℤ) → Option (Option ℤ)
  | [] => none
  | (k2, v) :: rest => if k2 = k then some v else lookupRaw k rest

/-- Field loop of canonicalize_cado_relations_jsonl: a missing field other
than large_prime raises, null values are skipped, present values are kept
as integers in schema field order. -/
def normCadoGo : List String → List (String × Option ℤ) →
    Except String (List (String × ℤ))
  | [], _ => .ok []
  | name :: rest, raw =>
      match lookupRaw name raw with
      | none =>
          if name = "large_prime" then normCadoGo rest raw
          else .error ("Missing required field: " ++ name)
      | some none => normCadoGo rest raw
      | some (some v) =>
          (normCadoGo rest raw).map (fun r => (name, v) :: r)

def normalizeCadoRow (raw : List (String × Option ℤ)) :
    Except String (List (String × ℤ)) :=
  normCadoGo cadoFields raw

/-- row.get over a normalized record. -/
def lookupRow (k : String) : List (String × ℤ) → Option ℤ
  | [] => none
  | (k2, v) :: rest => if k2 = k then some v else lookupRow k rest

/-- The key function of _sort_rows: per key field the value, or the -1
sentinel for a missing value. -/
def rowKey (keys : List String) (row : List (String × ℤ)) : List ℤ :=
  keys.map (fun k => (lookupRow k row).getD (-1))

/-- Python tuple comparison on the key tuples (lexicographic; a proper
front segment is smaller). -/
def keyLt : List ℤ → List ℤ → Bool
  | [], [] => false
  | [], _ :: _ => true
  | _ :: _, [] => false
  | x :: xs, y :: ys =>
      if x < y then true else if y < x then false else keyLt xs ys

/-- Stable insertion placing a row after every row whose key is not
strictly greater — the order Python's stable sort produces. -/
def insertRow (keys : List String) (r : List (String × ℤ)) :
    List (List (String × ℤ)) → List (List (String × ℤ))
  | [] => [r]
  | r2 :: rest =>
      if keyLt (rowKey keys r) (rowKey keys r2) then r :: r2 :: rest
      else r2 :: insertRow keys r rest

/-- _sort_rows: stable ascending sort by the primary-key tuple. Stable
sorts with one key agree, so insertion sort models the sorted builtin. -/
def sortRows (rows : List (List (String × ℤ))) (keys : List String) :
    List (List (String × ℤ)) :=
  rows.foldl (fun acc r => insertRow keys r acc) []

/-- json.dumps of one normalized record with compact separators; keys are
plain identifiers and values integers, so no escaping arises. -/
def dumpsRow (row : List (String × ℤ)) : String :=
  "\x7b" ++ String.intercalate ","
    (row.map (fun p => "\x22" ++ p.1 ++ "\x22:" ++ toString p.2)) ++ "\x7d"

/-- _write_jsonl: newline-joined rows with a terminating newline. -/
def writeJsonl (rows : List (List (String × ℤ))) : String :=
  String.intercalate "\n" (rows.map dumpsRow) ++ "\n"

def canonicalize_cado_relations_jsonl
    (rows : List (List (String × Option ℤ))) : Except String String :=
  match rows.mapM normalizeCadoRow with
  | .error e => .error e
  | .ok normalized => .ok (writeJsonl (sortRows normalized cadoPrimaryKey))

/-- The normalized record of a row that is known to normalize, for stating
theorems (error rows map to the empty record). -/
def normExtract (r : List (String × Option ℤ)) : List (String × ℤ) :=
  match normalizeCadoRow r with
  | .ok n => n
  | .error _ => []

/-- The primary-key tuple a raw row sorts under after normalization. -/
def normKey (r : List (String × Option ℤ)) : List ℤ :=
  rowKey cadoPrimaryKey (normExtract r)

end CoreIndex

namespace CoreIndex

set_option maxRecDepth 1000000

/-! ## Theorems for the claims -/

/-- C9: merkle_stream on a zero-byte stream returns chunk count 0, total
bytes 0, an empty leaf list, and the root is the SHA-256 digest of the
empty byte string rendered as a 0x-prefixed lowercase hex string. -/
theorem merkle_empty_stream :
    merkle_stream [] CHUNK_SIZE =
      ⟨hexOfBytes (sha256 []), [], 0, 0, CHUNK_SIZE⟩ ∧
    hexOfBytes (sha256 []) =
      "0xe3b0c44298fc1c149afbf4c8996fb92427ae41e4649b934ca495991b7852b855" := by
  constructor
  · rfl
  · decide

/-- C3: at n_checked 10, eps0 one half, alpha one hundredth, the decision is
reject_slash at zero mismatches yet accept at five mismatches: increasing
the mismatch count flips reject_slash into accept, because the code accepts
exactly when the left-tail binomial CDF is at least alpha, which grows with
the mismatch count — the opposite direction of the documented test. -/
theorem dispute_decision_inverted :
    decision 0 10 (1 / 2) (1 / 100) = "reject_slash" ∧
    decision 5 10 (1 / 2) (1 / 100) = "accept" := by
  have htn10 : (10 : ℤ).toNat = 10 := rfl
  have htn5 : (5 : ℤ).toNat = 5 := rfl
  have hc0 : binom_cdf 0 10 (1 / 2) = 1 / 1024 := by
    unfold binom_cdf
    norm_num [List.range_succ, htn10]
  have hch : (Nat.choose 10 0 = 1) ∧ (Nat.choose 10 1 = 10) ∧
      (Nat.choose 10 2 = 45) ∧ (Nat.choose 10 3 = 120) ∧
      (Nat.choose 10 4 = 210) ∧ (Nat.choose 10 5 = 252) := by decide
  have hc5 : binom_cdf 5 10 (1 / 2) = 319 / 512 := by
    unfold binom_cdf
    norm_num [List.range_succ, htn10, htn5, hch.1, hch.2.1, hch.2.2.1,
      hch.2.2.2.1, hch.2.2.2.2.1, hch.2.2.2.2.2]
  constructor
  · simp only [decision, accepts, hc0]
    norm_num
  · simp only [decision, accepts, hc5]
    norm_num

/-- C4 counterexample: called with a negative mismatch count the decision
function returns the verdict reject_slash instead of failing with an
InvalidArgument error. -/
theorem decision_negative_returns_verdict :
    decision (-1) 10 (1 / 100) (1 / 100) = "reject_slash" := by
  have h0 : binom_cdf (-1) 10 (1 / 100) = 0 := by
    unfold binom_cdf
    norm_num
  simp only [decision, accepts, h0]
  norm_num

/-- C4 amended: the decision function performs no argument validation and
always returns a verdict: a negative mismatch count gives CDF zero and so
reject_slash for any positive alpha, while any count at least n_checked
(including every case with n_checked nonpositive) gives CDF one and so
accept for any alpha at most one. -/
theorem decision_no_validation (x n : ℤ) (eps0 alpha : ℚ) :
    (x < 0 → 0 < alpha → decision x n eps0 alpha = "reject_slash") ∧
    (0 ≤ x → n ≤ x → alpha ≤ 1 → decision x n eps0 alpha = "accept") := by
  constructor
  · intro hx ha
    have h0 : binom_cdf x n eps0 = 0 := by simp [binom_cdf, hx]
    simp [decision, accepts, h0, not_le.mpr ha]
  · intro hx0 hnx ha
    have h1 : binom_cdf x n eps0 = 1 := by
      simp [binom_cdf, not_lt.mpr hx0, hnx]
    simp [decision, accepts, h1, ha]

/-- C4 witness: instances of the amended theorem, a negative count and a
count exceeding a nonpositive n_checked. -/
theorem decision_no_validation_witness :
    decision (-2) 5 (1 / 100) (1 / 100) = "reject_slash" ∧
    decision 7 0 (1 / 100) (1 / 100) = "accept" :=
  ⟨(decision_no_validation (-2) 5 (1 / 100) (1 / 100)).1 (by decide) (by norm_num),
   (decision_no_validation 7 0 (1 / 100) (1 / 100)).2 (by decide) (by decide)
     (by norm_num)⟩

/-- C7 counterexample: the NaN result of ulp_distance is the fixed sentinel
2 to the 63 minus 1, but that is not the largest value the function can
return: the distance between the negative and positive infinity patterns
exceeds it. -/
theorem ulp_nan_not_max :
    ulp_distance 9221120237041090560 4607182418800017408 =
      9223372036854775807 ∧
    9223372036854775807 <
      ulp_distance 18442240474082181120 9218868437227405312 := by
  constructor
  · decide
  · decide

/-- C7 amended: ulp_distance is a non-negative integer, both-zero operands
(either sign pattern) give distance 0, and a NaN operand gives the fixed
sentinel 2 to the 63 minus 1 (which is not the maximum over all pairs). -/
theorem ulp_distance_contract (pa pb : Nat) :
    0 ≤ ulp_distance pa pb ∧
    (isZeroBits pa → isZeroBits pb → ulp_distance pa pb = 0) ∧
    ((isNanBits pa || isNanBits pb) → ulp_distance pa pb = 9223372036854775807) := by
  refine ⟨?_, ?_, ?_⟩
  · unfold ulp_distance
    split
    · decide
    · split
      · decide
      · exact abs_nonneg _
  · intro hza hzb
    have hma : pa &&& 4503599627370495 = 0 := by
      have h := Nat.and_assoc pa 9223372036854775807 4503599627370495
      have hmask : (9223372036854775807 &&& 4503599627370495) = 4503599627370495 := by
        decide
      have hza' : pa &&& 9223372036854775807 = 0 := by
        simpa [isZeroBits] using hza
      rw [hmask] at h
      rw [← h, hza', Nat.zero_and]
    have hmb : pb &&& 4503599627370495 = 0 := by
      have h := Nat.and_assoc pb 9223372036854775807 4503599627370495
      have hmask : (9223372036854775807 &&& 4503599627370495) = 4503599627370495 := by
        decide
      have hzb' : pb &&& 9223372036854775807 = 0 := by
        simpa [isZeroBits] using hzb
      rw [hmask] at h
      rw [← h, hzb', Nat.zero_and]
    have hna : isNanBits pa = false := by simp [isNanBits, hma]
    have hnb : isNanBits pb = false := by simp [isNanBits, hmb]
    simp [ulp_distance, hna, hnb, hza, hzb]
  · intro hn
    simp [ulp_distance, hn]

/-- C7 witness: both-zero patterns give 0 and a NaN pattern gives the
sentinel, by the amended theorem at concrete patterns. -/
theorem ulp_distance_contract_witness :
    ulp_distance 9223372036854775808 0 = 0 ∧
    ulp_distance 9221120237041090560 0 = 9223372036854775807 :=
  ⟨(ulp_distance_contract 9223372036854775808 0).2.1 (by decide) (by decide),
   (ulp_distance_contract 9221120237041090560 0).2.2 (by decide)⟩

/-- C8 counterexample: with a first row whose dot product is nonzero, the
verifier returns the verdict false without ever reaching the second row,
whose bit-length 3 differs from the vector length 2 — no RowLengthMismatch
error is raised although a mismatched-length row is present. -/
theorem verify_gf2_skips_length_check :
    verify_f2_matrix_vector [['1', '0'], ['1', '0', '1']] ['1', '1'] =
      Except.ok false := rfl

/-- C8 amended: the verifier fails with the row-length error when the first
offending row is encountered before any row with a nonzero dot product:
if every row before some mismatched-length row has matching length and dot
product zero, the result is the RowLengthMismatch error. -/
theorem verify_gf2_rowlength (pre : List (List Char)) (row : List Char)
    (post : List (List Char)) (v : List Char)
    (hpre : ∀ r ∈ pre,
      (parseBitstring r).length = (parseBitstring v).length ∧
      dotF2 (parseBitstring r) (parseBitstring v) = 0)
    (hrow : (parseBitstring row).length ≠ (parseBitstring v).length) :
    verify_f2_matrix_vector (pre ++ row :: post) v =
      Except.error "Row length mismatch in matrix" := by
  unfold verify_f2_matrix_vector
  induction pre with
  | nil => simp [verifyF2Go, hrow]
  | cons r rs ih =>
      have hr := hpre r (by simp)
      have hrs : ∀ r ∈ rs,
          (parseBitstring r).length = (parseBitstring v).length ∧
          dotF2 (parseBitstring r) (parseBitstring v) = 0 := by
        intro x hx
        exact hpre x (by simp [hx])
      simp only [List.cons_append, verifyF2Go, hr.1, hr.2]
      simpa using ih hrs

/-- C8 witness: a zero-dot first row followed by a mismatched-length row
fails with the row-length error, by the amended theorem. -/
theorem verify_gf2_rowlength_witness :
    verify_f2_matrix_vector [['1', '1'], ['1', '0', '1']] ['1', '1'] =
      Except.error "Row length mismatch in matrix" :=
  verify_gf2_rowlength [['1', '1']] ['1', '0', '1'] [] ['1', '1']
    (by decide) (by decide)

/-! ### Sampling loop lemmas -/

/-- The draw loop only ever appends to its accumulator. -/
theorem chooseGo_append (seed : List Nat) (pop k : Nat) :
    ∀ (fuel : Nat) (out : List Nat) (counter : Nat),
    ∃ ext, chooseGo seed pop k fuel out counter = out ++ ext := by
  intro fuel
  induction fuel with
  | zero => intro out counter; exact ⟨[], by simp [chooseGo]⟩
  | succ n ih =>
      intro out counter
      by_cases h : out.length < k ∧ out.length < pop
      · by_cases hm : hmac_drbg seed counter % pop ∈ out
        · obtain ⟨ext, hext⟩ := ih out (counter + 1)
          exact ⟨ext, by simp [chooseGo, h, hm, hext]⟩
        · obtain ⟨ext, hext⟩ := ih (out ++ [hmac_drbg seed counter % pop]) (counter + 1)
          refine ⟨hmac_drbg seed counter % pop :: ext, ?_⟩
          simp [chooseGo, h, hm, hext]
      · exact ⟨[], by simp [chooseGo, h]⟩

/-- Every index the loop emits is below the population size, provided the
accumulator already satisfies that. -/
theorem chooseGo_mem_lt (seed : List Nat) (pop k : Nat) :
    ∀ (fuel : Nat) (out : List Nat) (counter : Nat),
    (∀ i ∈ out, i < pop) →
    ∀ i ∈ chooseGo seed pop k fuel out counter, i < pop := by
  intro fuel
  induction fuel with
  | zero => intro out counter hout; simpa [chooseGo] using hout
  | succ n ih =>
      intro out counter hout
      by_cases h : out.length < k ∧ out.length < pop
      · have hpop : 0 < pop := by omega
        by_cases hm : hmac_drbg seed counter % pop ∈ out
        · simpa [chooseGo, h, hm] using ih out (counter + 1) hout
        · have hout' : ∀ i ∈ out ++ [hmac_drbg seed counter % pop], i < pop := by
            intro i hi
            rcases List.mem_append.mp hi with hi | hi
            · exact hout i hi
            · simp at hi
              subst hi
              exact Nat.mod_lt _ hpop
          simpa [chooseGo, h, hm] using ih _ (counter + 1) hout'
      · simpa [chooseGo, h] using hout

/-- The loop never emits a duplicate index. -/
theorem chooseGo_nodup (seed : List Nat) (pop k : Nat) :
    ∀ (fuel : Nat) (out : List Nat) (counter : Nat),
    out.Nodup → (chooseGo seed pop k fuel out counter).Nodup := by
  intro fuel
  induction fuel with
  | zero => intro out counter hout; simpa [chooseGo] using hout
  | succ n ih =>
      intro out counter hout
      by_cases h : out.length < k ∧ out.length < pop
      · by_cases hm : hmac_drbg seed counter % pop ∈ out
        · simpa [chooseGo, h, hm] using ih out (counter + 1) hout
        · have hout' : (out ++ [hmac_drbg seed counter % pop]).Nodup := by
            simp [List.nodup_append, hout, hm]
          simpa [chooseGo, h, hm] using ih _ (counter + 1) hout'
      · simpa [chooseGo, h] using hout

/-- Raising the requested count only extends the emitted index list: the
draw sequence is the same counter-indexed DRBG stream in both runs. -/
theorem chooseGo_mono (seed : List Nat) (pop : Nat) {k1 k2 : Nat}
    (hk : k1 ≤ k2) :
    ∀ (fuel : Nat) (out : List Nat) (counter : Nat),
    ∃ ext, chooseGo seed pop k2 fuel out counter =
      chooseGo seed pop k1 fuel out counter ++ ext := by
  intro fuel
  induction fuel with
  | zero => intro out counter; exact ⟨[], by simp [chooseGo]⟩
  | succ n ih =>
      intro out counter
      by_cases h1 : out.length < k1 ∧ out.length < pop
      · have h2 : out.length < k2 ∧ out.length < pop := ⟨by omega, h1.2⟩
        by_cases hm : hmac_drbg seed counter % pop ∈ out
        · obtain ⟨ext, hext⟩ := ih out (counter + 1)
          exact ⟨ext, by simp [chooseGo, h1, h2, hm, hext]⟩
        · obtain ⟨ext, hext⟩ := ih (out ++ [hmac_drbg seed counter % pop]) (counter + 1)
          exact ⟨ext, by simp [chooseGo, h1, h2, hm, hext]⟩
      · obtain ⟨ext, hext⟩ := chooseGo_append seed pop k2 (n + 1) out counter
        refine ⟨ext, ?_⟩
        have hstop : chooseGo seed pop k1 (n + 1) out counter = out := by
          simp [chooseGo, h1]
        simp [hstop, hext]

/-- A non-empty result starts with the counter-0 draw reduced modulo the
population size. -/
theorem choose_indices_head (seed : List Nat) (pop k fuel : Nat)
    (h : choose_indices seed pop k fuel ≠ []) :
    (choose_indices seed pop k fuel).head? =
      some (hmac_drbg seed 0 % pop) := by
  cases fuel with
  | zero => exact absurd (by simp [choose_indices, chooseGo]) h
  | succ n =>
      by_cases hc : (0 : Nat) < k ∧ (0 : Nat) < pop
      · have hm : hmac_drbg seed 0 % pop ∉ ([] : List Nat) := by simp
        obtain ⟨ext, hext⟩ := chooseGo_append seed pop k n [hmac_drbg seed 0 % pop] 1
        have hrun : choose_indices seed pop k (n + 1) =
            hmac_drbg seed 0 % pop :: ext := by
          simp only [choose_indices, chooseGo]
          simp only [List.length_nil, hc.1, hc.2, and_self, if_true, hm,
            if_false]
          simpa using hext
        rw [hrun]
        rfl
      · have : choose_indices seed pop k (n + 1) = [] := by
          simp only [choose_indices, chooseGo]
          simp [hc]
        exact absurd this h

/-- C6: every plan plan_sampling returns has all canary and spot indices in
the interval from 0 inclusive to n_items exclusive, with no duplicates in
either list. -/
theorem sampling_index_bounds (jobId window tier packageId : List Nat)
    (nItems : ℤ) (secretEpoch : List Nat) (jobSeedHex : Option (List Char))
    (masterKey : List Nat) (policy : Policy) (fuel : Nat)
    (plan : SamplingPlan)
    (h : plan_sampling jobId window tier packageId nItems secretEpoch
      jobSeedHex masterKey policy fuel = .ok plan) :
    (∀ i ∈ plan.canaryIndices, (i : ℤ) < nItems) ∧
    plan.canaryIndices.Nodup ∧
    (∀ i ∈ plan.spotIndices, (i : ℤ) < nItems) ∧
    plan.spotIndices.Nodup := by
  unfold plan_sampling at h
  by_cases hn : nItems ≤ 0
  · rw [if_pos hn] at h
    cases h
  rw [if_neg hn] at h
  set E := (match jobSeedHex with
    | some (c :: cs) => bytesFromHex (dropHexMarker (c :: cs))
    | _ => Except.ok (derive_job_seed masterKey jobId window tier secretEpoch))
    with hE
  clear_value E
  cases E with
  | error e => cases h
  | ok jobSeed =>
      simp only [Except.bind] at h
      cases h
      have hcast : ∀ i : Nat, i < nItems.toNat → (i : ℤ) < nItems := by
        intro i hi
        omega
      refine ⟨?_, ?_, ?_, ?_⟩
      · intro i hi
        exact hcast i (chooseGo_mem_lt (derive_pkg_seed jobSeed packageId)
          nItems.toNat (compute_count nItems policy.canaryRate
            policy.minCanariesPerPkg).toNat fuel [] 0 (by simp) i hi)
      · exact chooseGo_nodup (derive_pkg_seed jobSeed packageId)
          nItems.toNat (compute_count nItems policy.canaryRate
            policy.minCanariesPerPkg).toNat fuel [] 0 (by simp)
      · intro i hi
        exact hcast i (chooseGo_mem_lt (derive_pkg_seed jobSeed packageId)
          nItems.toNat (compute_count nItems policy.spotRate
            policy.minSpotItemsPerPkg).toNat fuel [] 0 (by simp) i hi)
      · exact chooseGo_nodup (derive_pkg_seed jobSeed packageId)
          nItems.toNat (compute_count nItems policy.spotRate
            policy.minSpotItemsPerPkg).toNat fuel [] 0 (by simp)

/-- C6 witness: the bound and no-duplicate facts for a concrete plan with
five items, derived seeds, zero rates and floors one and two. -/
theorem sampling_index_bounds_witness :
    (∀ i ∈ choose_indices pkgSeedW (5 : ℤ).toNat
        (compute_count 5 0 1).toNat 3, (i : ℤ) < 5) ∧
    (choose_indices pkgSeedW (5 : ℤ).toNat
        (compute_count 5 0 1).toNat 3).Nodup ∧
    (∀ i ∈ choose_indices pkgSeedW (5 : ℤ).toNat
        (compute_count 5 0 2).toNat 3, (i : ℤ) < 5) ∧
    (choose_indices pkgSeedW (5 : ℤ).toNat
        (compute_count 5 0 2).toNat 3).Nodup :=
  sampling_index_bounds [106] [119] [116] [112] 5 [101] none [107]
    ⟨0, 0, 1, 0, 2⟩ 3 _ rfl

/-- C10: the canary and spot index lists of every returned plan come from
one package seed and one DRBG counter stream starting at 0: each is a
prefix of the other up to the shorter length, non-empty lists share their
first element, and a non-empty canary list starts with the counter-0 draw
(the very draw whose scaled value decides duplication) reduced modulo
n_items. -/
theorem sampling_shared_stream (jobId window tier packageId : List Nat)
    (nItems : ℤ) (secretEpoch : List Nat) (jobSeedHex : Option (List Char))
    (masterKey : List Nat) (policy : Policy) (fuel : Nat)
    (plan : SamplingPlan)
    (h : plan_sampling jobId window tier packageId nItems secretEpoch
      jobSeedHex masterKey policy fuel = .ok plan) :
    plan.canaryIndices.take plan.spotIndices.length =
      plan.spotIndices.take plan.canaryIndices.length ∧
    (plan.canaryIndices ≠ [] → plan.spotIndices ≠ [] →
      plan.canaryIndices.head? = plan.spotIndices.head?) ∧
    ∃ pkgSeed,
      plan.canaryIndices =
        choose_indices pkgSeed nItems.toNat plan.canaryCount.toNat fuel ∧
      plan.spotIndices =
        choose_indices pkgSeed nItems.toNat plan.spotCount.toNat fuel ∧
      (plan.canaryIndices ≠ [] → plan.canaryIndices.head? =
        some (hmac_drbg pkgSeed 0 % nItems.toNat)) ∧
      plan.dupSelected =
        decide ((hmac_drbg pkgSeed 0 : ℚ) / 2 ^ 256 < policy.dupRate) := by
  unfold plan_sampling at h
  by_cases hn : nItems ≤ 0
  · rw [if_pos hn] at h
    cases h
  rw [if_neg hn] at h
  set E := (match jobSeedHex with
    | some (c :: cs) => bytesFromHex (dropHexMarker (c :: cs))
    | _ => Except.ok (derive_job_seed masterKey jobId window tier secretEpoch))
    with hE
  clear_value E
  cases E with
  | error e => cases h
  | ok jobSeed =>
      simp only [Except.bind] at h
      cases h
      set seed := derive_pkg_seed jobSeed packageId with hseed
      set kc := (compute_count nItems policy.canaryRate
        policy.minCanariesPerPkg).toNat with hkc
      set ks := (compute_count nItems policy.spotRate
        policy.minSpotItemsPerPkg).toNat with hks
      have hpre : (choose_indices seed nItems.toNat kc fuel).take
          (choose_indices seed nItems.toNat ks fuel).length =
          (choose_indices seed nItems.toNat ks fuel).take
          (choose_indices seed nItems.toNat kc fuel).length := by
        rcases Nat.le_total kc ks with hk | hk
        · obtain ⟨ext, hext⟩ :=
            chooseGo_mono seed nItems.toNat hk fuel [] 0
          have hext' : choose_indices seed nItems.toNat ks fuel =
              choose_indices seed nItems.toNat kc fuel ++ ext := hext
          rw [hext']
          rw [List.take_left]
          rw [List.take_of_length_le (by simp)]
        · obtain ⟨ext, hext⟩ :=
            chooseGo_mono seed nItems.toNat hk fuel [] 0
          have hext' : choose_indices seed nItems.toNat kc fuel =
              choose_indices seed nItems.toNat ks fuel ++ ext := hext
          rw [hext']
          rw [List.take_left]
          rw [List.take_of_length_le (by simp)]
      refine ⟨hpre, ?_, seed, rfl, rfl, ?_, rfl⟩
      · intro hc hs
        have h1 := choose_indices_head seed nItems.toNat kc fuel hc
        have h2 := choose_indices_head seed nItems.toNat ks fuel hs
        rw [h1, h2]
      · intro hc
        exact choose_indices_head seed nItems.toNat kc fuel hc

/-! ### Comparator theorems -/

/-- C1: equal Merkle roots short-circuit the comparator: the result is the
fast-path dict with equal true, no record count, zero maxima and zero
differences, and the field-level loop is never entered. -/
theorem compare_fast_path (a b : List Nat) (schemaId mode : String)
    (relTol : ℚ) (maxUlp : ℤ)
    (h : (merkle_stream a CHUNK_SIZE).root = (merkle_stream b CHUNK_SIZE).root) :
    compare_canonical_fast a b schemaId mode relTol maxUlp =
      .ok ⟨true, mode, schemaId, none, 0, 0, 0⟩ := by
  unfold compare_canonical_fast
  rw [if_pos h]

/-- C1 witness: two identical two-byte streams have equal roots and compare
equal on the fast path. -/
theorem compare_fast_path_witness :
    compare_canonical_fast [104, 105] [104, 105] "table@1" "bit_exact"
      (1 / 10000) 2 =
      .ok ⟨true, "bit_exact", "table@1", none, 0, 0, 0⟩ :=
  compare_fast_path [104, 105] [104, 105] "table@1" "bit_exact"
    (1 / 10000) 2 rfl

/-- C5 counterexample: with the mode string bogus, which is neither
bit_exact nor fp_tolerant, the comparator still returns a comparison
result instead of failing with an InvalidMode error. -/
theorem compare_bogus_mode_returns :
    compare_canonical_fast [104, 105] [104, 105] "table@1" "bogus"
      (1 / 10000) 2 =
      .ok ⟨true, "bogus", "table@1", none, 0, 0, 0⟩ := by
  unfold compare_canonical_fast
  rw [if_pos rfl]

/-- The line loop depends on the mode string only through the test against
bit_exact. -/
theorem compareLoop_mode_congr (m1 m2 : String)
    (hm : (m1 == "bit_exact") = (m2 == "bit_exact"))
    (relTol : ℚ) (maxUlp : ℤ) :
    ∀ (las lbs : List (List Nat)) (st : CmpState),
    compareLoop m1 relTol maxUlp las lbs st =
      compareLoop m2 relTol maxUlp las lbs st := by
  intro las
  induction las with
  | nil => intro lbs st; cases lbs <;> rfl
  | cons la as ih =>
      intro lbs st
      cases lbs with
      | nil => rfl
      | cons lb bs =>
          cases h1 : jsonLoads la with
          | error e => simp only [compareLoop, h1]
          | ok ra =>
              cases h2 : jsonLoads lb with
              | error e => simp only [compareLoop, h1, h2]
              | ok rb =>
                  simp only [compareLoop, h1, h2, hm]
                  split
                  · exact ih bs _
                  · cases ra with
                    | obj oa =>
                        cases rb with
                        | obj ob =>
                            cases hk : keysEq oa ob with
                            | true =>
                                simp only [hk, eq_self_iff_true, if_true]
                                cases hf : foldKeys relTol maxUlp oa ob
                                    ⟨st.diffs, st.relErrMax, st.ulpMax,
                                      st.recs + 1⟩ with
                                | error e => simp only [hf]
                                | ok st1 => simp only [hf]; exact ih bs st1
                            | false =>
                                simp only [hk, Bool.false_eq_true, if_false]
                                exact ih bs _
                        | null => rfl
                        | bool b => rfl
                        | num q => rfl
                        | str s => rfl
                        | arr xs => rfl
                    | null => cases rb <;> rfl
                    | bool b => cases rb <;> rfl
                    | num q => cases rb <;> rfl
                    | str s => cases rb <;> rfl
                    | arr xs => cases rb <;> rfl

/-- C5 amended: the comparator performs no mode validation: the result of
the full comparison is the same for every mode string on the same side of
the bit_exact test, the mode being only echoed back; in particular any
unknown mode silently behaves exactly like fp_tolerant and a result is
always returned in place of an InvalidMode failure. -/
theorem compare_mode_no_validation (a b : List Nat) (schemaId m1 m2 : String)
    (relTol : ℚ) (maxUlp : ℤ)
    (hm : (m1 == "bit_exact") = (m2 == "bit_exact")) :
    (compare_canonical_fast a b schemaId m1 relTol maxUlp).map forgetMode =
    (compare_canonical_fast a b schemaId m2 relTol maxUlp).map forgetMode := by
  unfold compare_canonical_fast
  split
  · rfl
  · unfold compare_canonical_streams
    rw [compareLoop_mode_congr m1 m2 hm relTol maxUlp (linesOf a) (linesOf b)
      ⟨0, 0, 0, 0⟩]
    cases compareLoop m2 relTol maxUlp (linesOf a) (linesOf b) ⟨0, 0, 0, 0⟩ <;> rfl

/-- C5 witness: on concrete unequal streams, the bogus mode produces the
same result as fp_tolerant up to the echoed mode string. -/
theorem compare_mode_no_validation_witness :
    (compare_canonical_fast [104, 105] [] "table@1" "fp_tolerant"
      (1 / 10000) 2).map forgetMode =
    (compare_canonical_fast [104, 105] [] "table@1" "bogus"
      (1 / 10000) 2).map forgetMode :=
  compare_mode_no_validation [104, 105] [] "table@1" "fp_tolerant" "bogus"
    (1 / 10000) 2 (by decide)

/-! ### Canonicalizer determinism -/

theorem keyLt_asymm : ∀ a b : List ℤ, keyLt a b = true → keyLt b a = false := by
  intro a
  induction a with
  | nil =>
      intro b h
      cases b with
      | nil => simp [keyLt] at h
      | cons y ys => simp [keyLt]
  | cons x xs ih =>
      intro b h
      cases b with
      | nil => simp [keyLt] at h
      | cons y ys =>
          simp only [keyLt] at h ⊢
          by_cases h1 : x < y
          · have h2 : ¬ y < x := by omega
            simp [h1, h2]
          · by_cases h2 : y < x
            · simp [h1, h2] at h
            · simp only [h1, h2, if_false] at h
              simp only [h1, h2, if_false]
              exact ih ys h

theorem keyLt_trans : ∀ a b c : List ℤ, keyLt a b = true → keyLt b c = true →
    keyLt a c = true := by
  intro a
  induction a with
  | nil =>
      intro b c h1 h2
      cases b with
      | nil => simp [keyLt] at h1
      | cons y ys =>
          cases c with
          | nil => simp [keyLt] at h2
          | cons z zs => simp [keyLt]
  | cons x xs ih =>
      intro b c h1 h2
      cases b with
      | nil => simp [keyLt] at h1
      | cons y ys =>
          cases c with
          | nil => simp [keyLt] at h2
          | cons z zs =>
              simp only [keyLt] at h1 h2 ⊢
              by_cases hxy : x < y
              · by_cases hyz : y < z
                · simp [show x < z by omega]
                · by_cases hzy : z < y
                  · simp [hyz, hzy] at h2
                  · have hyz2 : y = z := by omega
                    simp [show x < z by omega]
              · by_cases hyx : y < x
                · simp [hxy, hyx] at h1
                · have hxy2 : x = y := by omega
                  subst hxy2
                  by_cases hyz : x < z
                  · simp [hyz]
                  · by_cases hzy : z < x
                    · simp [hyz, hzy] at h2
                    · simp only [hxy, hyx, if_false] at h1
                      simp only [hyz, hzy, if_false] at h2
                      simp only [hyz, hzy, if_false]
                      exact ih ys zs h1 h2

theorem keyLt_conn : ∀ a b : List ℤ, a.length = b.length →
    keyLt a b = false → keyLt b a = false → a = b := by
  intro a
  induction a with
  | nil =>
      intro b hlen h1 h2
      cases b with
      | nil => rfl
      | cons y ys => simp at hlen
  | cons x xs ih =>
      intro b hlen h1 h2
      cases b with
      | nil => simp at hlen
      | cons y ys =>
          simp only [keyLt] at h1 h2
          by_cases hxy : x < y
          · simp [hxy] at h1
          · by_cases hyx : y < x
            · simp [hyx] at h2
            · have hx : x = y := by omega
              subst hx
              simp only [hxy, hyx, if_false] at h1 h2
              simp only [List.length_cons, Nat.add_right_cancel_iff] at hlen
              rw [ih ys hlen h1 h2]

/-- Inserting is a permutation of consing. -/
theorem insertRow_perm (keys : List String) (r : List (String × ℤ)) :
    ∀ l : List (List (String × ℤ)), (insertRow keys r l).Perm (r :: l) := by
  intro l
  induction l with
  | nil => simp [insertRow]
  | cons r2 rest ih =>
      simp only [insertRow]
      split
      · exact List.Perm.refl _
      · exact ((ih.cons r2).trans (List.Perm.swap r r2 rest))

/-- The insertion sort permutes its input. -/
theorem sortRows_perm (keys : List String) (rows : List (List (String × ℤ))) :
    (sortRows rows keys).Perm rows := by
  suffices h : ∀ (l acc : List (List (String × ℤ))),
      (l.foldl (fun acc r => insertRow keys r acc) acc).Perm (acc ++ l) by
    simpa using h rows []
  intro l
  induction l with
  | nil => intro acc; simp
  | cons r rs ih =>
      intro acc
      have h1 := ih (insertRow keys r acc)
      have h2 : (insertRow keys r acc ++ rs).Perm ((r :: acc) ++ rs) :=
        (insertRow_perm keys r acc).append_right rs
      have h3 : ((r :: acc) ++ rs).Perm (acc ++ r :: rs) := by
        simpa using List.perm_middle.symm
      simpa using (h1.trans h2).trans h3

/-- The ascending (non-strict) order the insertion maintains. -/
theorem insertRow_pairwise (keys : List String) (r : List (String × ℤ))
    (l : List (List (String × ℤ)))
    (hl : l.Pairwise (fun x y => keyLt (rowKey keys y) (rowKey keys x) = false)) :
    (insertRow keys r l).Pairwise
      (fun x y => keyLt (rowKey keys y) (rowKey keys x) = false) := by
  induction l with
  | nil => simp [insertRow]
  | cons r2 rest ih =>
      rcases List.pairwise_cons.mp hl with ⟨hr2, hrest⟩
      simp only [insertRow]
      split
      · rename_i hlt
        refine List.pairwise_cons.mpr ⟨?_, hl⟩
        intro x hx
        rcases List.mem_cons.mp hx with hx | hx
        · subst hx
          exact keyLt_asymm _ _ hlt
        · by_contra hxr
          have hxr2 : keyLt (rowKey keys x) (rowKey keys r) = true := by
            cases h : keyLt (rowKey keys x) (rowKey keys r) with
            | true => rfl
            | false => exact absurd h hxr
          have := keyLt_trans _ _ _ hxr2 hlt
          rw [hr2 x hx] at this
          cases this
      · rename_i hnlt
        refine List.pairwise_cons.mpr ⟨?_, ih hrest⟩
        intro x hx
        have hx2 := (insertRow_perm keys r rest).mem_iff.mp hx
        rcases List.mem_cons.mp hx2 with hx2 | hx2
        · subst hx2
          simpa using hnlt
        · exact hr2 x hx2

/-- The sort output is ascending by key. -/
theorem sortRows_pairwise (keys : List String)
    (rows : List (List (String × ℤ))) :
    (sortRows rows keys).Pairwise
      (fun x y => keyLt (rowKey keys y) (rowKey keys x) = false) := by
  suffices h : ∀ (l acc : List (List (String × ℤ))),
      acc.Pairwise (fun x y => keyLt (rowKey keys y) (rowKey keys x) = false) →
      (l.foldl (fun acc r => insertRow keys r acc) acc).Pairwise
        (fun x y => keyLt (rowKey keys y) (rowKey keys x) = false) by
    exact h rows [] (by simp)
  intro l
  induction l with
  | nil => intro acc hacc; simpa using hacc
  | cons r rs ih =>
      intro acc hacc
      exact ih (insertRow keys r acc) (insertRow_pairwise keys r acc hacc)

/-- Two key-distinct permutations with the same sorted order are equal. -/
theorem sortRows_eq_of_perm (keys : List String)
    (l1 l2 : List (List (String × ℤ))) (hperm : l1.Perm l2)
    (hdist : l1.Pairwise (fun x y => rowKey keys x ≠ rowKey keys y)) :
    sortRows l1 keys = sortRows l2 keys := by
  have hs1 := sortRows_perm keys l1
  have hs2 := sortRows_perm keys l2
  have hp : (sortRows l1 keys).Perm (sortRows l2 keys) :=
    (hs1.trans hperm).trans hs2.symm
  have hsym : ∀ {x y : List (String × ℤ)},
      rowKey keys x ≠ rowKey keys y → rowKey keys y ≠ rowKey keys x :=
    fun h => fun he => h he.symm
  have hd1 : (sortRows l1 keys).Pairwise
      (fun x y => rowKey keys x ≠ rowKey keys y) :=
    ((hs1.pairwise_iff hsym).mpr hdist)
  have hd2 : (sortRows l2 keys).Pairwise
      (fun x y => rowKey keys x ≠ rowKey keys y) :=
    ((hp.pairwise_iff hsym).mp hd1)
  have hlen : ∀ x, (rowKey keys x).length = keys.length := by
    intro x
    simp [rowKey]
  have hstrict : ∀ (l : List (List (String × ℤ))),
      l.Pairwise (fun x y => keyLt (rowKey keys y) (rowKey keys x) = false) →
      l.Pairwise (fun x y => rowKey keys x ≠ rowKey keys y) →
      l.Sorted (fun x y => keyLt (rowKey keys x) (rowKey keys y) = true) := by
    intro l hle hne
    refine (hle.and hne).imp ?_
    rintro a b ⟨hab, hne2⟩
    cases h : keyLt (rowKey keys a) (rowKey keys b) with
    | true => rfl
    | false =>
        exact absurd (keyLt_conn _ _ (by rw [hlen, hlen]) h hab) hne2
  haveI : IsAntisymm (List (String × ℤ))
      (fun x y => keyLt (rowKey keys x) (rowKey keys y) = true) := by
    constructor
    intro a b h1 h2
    rw [keyLt_asymm _ _ h1] at h2
    cases h2
  exact List.eq_of_perm_of_sorted hp
    (hstrict _ (sortRows_pairwise keys l1) hd1)
    (hstrict _ (sortRows_pairwise keys l2) hd2)

/-- When every row normalizes, mapM is the plain map of the extracted
normalized rows. -/
theorem mapM_normalize_ok :
    ∀ rows : List (List (String × Option ℤ)),
    (∀ r ∈ rows, ∃ n, normalizeCadoRow r = .ok n) →
    rows.mapM normalizeCadoRow = .ok (rows.map normExtract) := by
  intro rows
  induction rows with
  | nil => intro h; rfl
  | cons r rs ih =>
      intro h
      obtain ⟨n, hn⟩ := h r (by simp)
      have hrs := ih (fun x hx => h x (by simp [hx]))
      rw [List.mapM_cons, hn, hrs]
      have hex : normExtract r = n := by simp [normExtract, hn]
      simp [hex]
      rfl

/-- Normalization reads the raw record only through dict lookups, so field
order inside a record is irrelevant. -/
theorem normalize_lookup_congr (r s : List (String × Option ℤ))
    (h : ∀ k, lookupRaw k r = lookupRaw k s) :
    normalizeCadoRow r = normalizeCadoRow s := by
  unfold normalizeCadoRow
  generalize cadoFields = fields
  induction fields with
  | nil => rfl
  | cons name rest ih =>
      simp only [normCadoGo, h name, ih]

/-- C2, amended: for the cado_relations canonicalizer, inputs of identical
semantic content that differ only in the order of fields within records or
in the order of rows canonicalize to byte-identical output, provided the
normalized rows carry pairwise-distinct primary-key tuples; rows2 is
rows1 reordered (the permutation) with fields arbitrarily reordered inside
each record (the lookup equivalence). -/
theorem canonicalize_cado_deterministic
    (rows1 rows2' rows2 : List (List (String × Option ℤ)))
    (hperm : rows1.Perm rows2')
    (hfield : List.Forall₂
      (fun r s => ∀ k, lookupRaw k r = lookupRaw k s) rows2' rows2)
    (hok : ∀ r ∈ rows1, ∃ n, normalizeCadoRow r = .ok n)
    (hdist : rows1.Pairwise (fun r s => normKey r ≠ normKey s)) :
    canonicalize_cado_relations_jsonl rows1 =
    canonicalize_cado_relations_jsonl rows2 := by
  have hok2 : ∀ r ∈ rows2', ∃ n, normalizeCadoRow r = .ok n := by
    intro r hr
    exact hok r (hperm.mem_iff.mpr hr)
  have hmapM_gen : ∀ (u v : List (List (String × Option ℤ))),
      List.Forall₂ (fun r s => ∀ k, lookupRaw k r = lookupRaw k s) u v →
      u.mapM normalizeCadoRow = v.mapM normalizeCadoRow := by
    intro u v h
    induction h with
    | nil => rfl
    | cons hc _ ih =>
        rw [List.mapM_cons, List.mapM_cons, normalize_lookup_congr _ _ hc, ih]
  have h1 := mapM_normalize_ok rows1 hok
  have h2 := mapM_normalize_ok rows2' hok2
  have h3 : rows2.mapM normalizeCadoRow = .ok (rows2'.map normExtract) := by
    rw [← hmapM_gen rows2' rows2 hfield]
    exact h2
  have hpm : (rows1.map normExtract).Perm (rows2'.map normExtract) :=
    hperm.map normExtract
  have hdist1 : (rows1.map normExtract).Pairwise
      (fun x y => rowKey cadoPrimaryKey x ≠ rowKey cadoPrimaryKey y) := by
    rw [List.pairwise_map]
    exact hdist
  have hsort := sortRows_eq_of_perm cadoPrimaryKey
    (rows1.map normExtract) (rows2'.map normExtract) hpm hdist1
  simp only [canonicalize_cado_relations_jsonl, h1, h3, hsort]

/-- C2 counterexample: two rows with equal primary-key tuples but different
large_prime values: swapping the two rows is a permutation of the input
(identical semantic content, only row order differs), yet the canonical
bytes differ, because the stable sort preserves the input order of
equal-key rows. -/
theorem canonicalize_row_order_dependent :
    ([[("a", some (1 : ℤ)), ("b", some 0), ("large_prime", some 7)],
      [("a", some 1), ("b", some 0), ("large_prime", some 9)]] :
        List (List (String × Option ℤ))).Perm
      [[("a", some 1), ("b", some 0), ("large_prime", some 9)],
       [("a", some 1), ("b", some 0), ("large_prime", some 7)]] ∧
    canonicalize_cado_relations_jsonl
      [[("a", some 1), ("b", some 0), ("large_prime", some 7)],
       [("a", some 1), ("b", some 0), ("large_prime", some 9)]] =
      .ok "\x7b\x22a\x22:1,\x22b\x22:0,\x22large_prime\x22:7\x7d\n\x7b\x22a\x22:1,\x22b\x22:0,\x22large_prime\x22:9\x7d\n" ∧
    canonicalize_cado_relations_jsonl
      [[("a", some 1), ("b", some 0), ("large_prime", some 9)],
       [("a", some 1), ("b", some 0), ("large_prime", some 7)]] =
      .ok "\x7b\x22a\x22:1,\x22b\x22:0,\x22large_prime\x22:9\x7d\n\x7b\x22a\x22:1,\x22b\x22:0,\x22large_prime\x22:7\x7d\n" ∧
    ("\x7b\x22a\x22:1,\x22b\x22:0,\x22large_prime\x22:7\x7d\n\x7b\x22a\x22:1,\x22b\x22:0,\x22large_prime\x22:9\x7d\n" : String) ≠
      "\x7b\x22a\x22:1,\x22b\x22:0,\x22large_prime\x22:9\x7d\n\x7b\x22a\x22:1,\x22b\x22:0,\x22large_prime\x22:7\x7d\n" :=
  ⟨List.Perm.swap _ _ _, rfl, rfl, by decide⟩

/-- C2 witness: a concrete instance of the amended determinism theorem:
two rows with distinct keys, reordered and with their fields shuffled,
canonicalize identically. -/
theorem canonicalize_cado_deterministic_witness :
    canonicalize_cado_relations_jsonl
      [[("a", some (2 : ℤ)), ("b", some 3)],
       [("a", some 1), ("b", some 0), ("large_prime", some 5)]] =
    canonicalize_cado_relations_jsonl
      [[("large_prime", some 5), ("a", some 1), ("b", some 0)],
       [("b", some 3), ("a", some 2)]] := by
  refine canonicalize_cado_deterministic
    [[("a", some 2), ("b", some 3)],
     [("a", some 1), ("b", some 0), ("large_prime", some 5)]]
    [[("a", some 1), ("b", some 0), ("large_prime", some 5)],
     [("a", some 2), ("b", some 3)]]
    [[("large_prime", some 5), ("a", some 1), ("b", some 0)],
     [("b", some 3), ("a", some 2)]]
    (List.Perm.swap _ _ _) ?_ ?_ ?_
  · refine List.Forall₂.cons ?_ (List.Forall₂.cons ?_ List.Forall₂.nil)
    · intro k
      by_cases h1 : k = "a"
      · subst h1; rfl
      · by_cases h2 : k = "b"
        · subst h2; rfl
        · by_cases h3 : k = "large_prime"
          · subst h3; rfl
          · simp [lookupRaw, h1, h2, h3, Ne.symm]
    · intro k
      by_cases h1 : k = "a"
      · subst h1; rfl
      · by_cases h2 : k = "b"
        · subst h2; rfl
        · simp [lookupRaw, h1, h2, Ne.symm]
  · intro r hr
    rcases List.mem_cons.mp hr with h | hr2
    · subst h; exact ⟨_, rfl⟩
    · rcases List.mem_cons.mp hr2 with h | hr3
      · subst h; exact ⟨_, rfl⟩
      · cases hr3
  · refine List.pairwise_cons.mpr ⟨?_, by simp⟩
    intro s hs
    rcases List.mem_cons.mp hs with h | h
    · subst h
      decide
    · cases h

/-- C10 witness: the shared-stream facts for the same concrete plan as the
C6 witness. -/
theorem sampling_shared_stream_witness :
    (choose_indices pkgSeedW (5 : ℤ).toNat (compute_count 5 0 1).toNat 3).take
      (choose_indices pkgSeedW (5 : ℤ).toNat (compute_count 5 0 2).toNat 3).length =
    (choose_indices pkgSeedW (5 : ℤ).toNat (compute_count 5 0 2).toNat 3).take
      (choose_indices pkgSeedW (5 : ℤ).toNat (compute_count 5 0 1).toNat 3).length ∧
    (choose_indices pkgSeedW (5 : ℤ).toNat (compute_count 5 0 1).toNat 3 ≠ [] →
      choose_indices pkgSeedW (5 : ℤ).toNat (compute_count 5 0 2).toNat 3 ≠ [] →
      (choose_indices pkgSeedW (5 : ℤ).toNat (compute_count 5 0 1).toNat 3).head? =
      (choose_indices pkgSeedW (5 : ℤ).toNat (compute_count 5 0 2).toNat 3).head?) ∧
    ∃ pkgSeed,
      choose_indices pkgSeedW (5 : ℤ).toNat (compute_count 5 0 1).toNat 3 =
        choose_indices pkgSeed (5 : ℤ).toNat (compute_count 5 0 1).toNat 3 ∧
      choose_indices pkgSeedW (5 : ℤ).toNat (compute_count 5 0 2).toNat 3 =
        choose_indices pkgSeed (5 : ℤ).toNat (compute_count 5 0 2).toNat 3 ∧
      (choose_indices pkgSeedW (5 : ℤ).toNat (compute_count 5 0 1).toNat 3 ≠ [] →
        (choose_indices pkgSeedW (5 : ℤ).toNat (compute_count 5 0 1).toNat 3).head? =
        some (hmac_drbg pkgSeed 0 % (5 : ℤ).toNat)) ∧
      decide ((hmac_drbg pkgSeedW 0 : ℚ) / 2 ^ 256 < (0 : ℚ)) =
        decide ((hmac_drbg pkgSeed 0 : ℚ) / 2 ^ 256 < (0 : ℚ)) :=
  sampling_shared_stream [106] [119] [116] [112] 5 [101] none [107]
    ⟨0, 0, 1, 0, 2⟩ 3 _ rfl

end CoreIndex
